import Mathlib

/-!
Verification of the opening-explorer indexer core against its specification.

The development shallowly embeds the three source files
`src/model/lichess.rs`, `src/model/month.rs` and `src/indexer/mod.rs`.
Helper types from `crate::model` (varints, `Stats`, `GameId`, the UCI codec,
`PersonalStatus`, `GameInfo`, `Speed`, `Mode`) are not part of the given
sources and are modelled from the specification, as marked on each
definition.  Byte streams are `List Nat` with byte values kept below 256 by
the writers exactly where the Rust code performs `as u8` truncation.
-/

namespace OpeningExplorer

/-- A byte of a persisted stream (value intended below 256). -/
abbrev Byte := Nat

/-- I/O error kinds distinguished by the codec: end-of-stream
(`UnexpectedEof`) versus malformed data (`InvalidData`). -/
inductive IoErr where
  | eof
  | invalidData
  deriving DecidableEq, Repr

/-- Modelled from the spec: `write_uint`, LEB128-style unsigned varint,
little-endian, 7 data bits per byte, continuation bit in the MSB
(`crate::model`, not under `src/`).  The recursion is fueled by the value
itself, which is always sufficient since `n / 128 < n` for `n ≥ 128`. -/
def writeUintAux : Nat → Nat → List Byte
  | 0, n => [n % 128]
  | fuel + 1, n => if n < 128 then [n] else (n % 128 + 128) :: writeUintAux fuel (n / 128)

/-- Modelled from the spec: `write_uint` entry point. -/
def writeUint (n : Nat) : List Byte :=
  writeUintAux n n

/-- Modelled from the spec: `read_uint`, decoding a LEB128 varint from the
front of a byte stream; end of stream inside a varint is `UnexpectedEof`. -/
def readUint : List Byte → Except IoErr (Nat × List Byte)
  | [] => .error .eof
  | b :: rest =>
    if b &&& 128 == 0 then .ok (b &&& 127, rest)
    else
      match readUint rest with
      | .error e => .error e
      | .ok (v, rest') => .ok ((b &&& 127) + (v <<< 7), rest')

/-- Modelled from the spec: a UCI move is encoded as a small fixed-size
code; the claims never inspect its structure, so it is modelled as a 16-bit
code written as two little-endian bytes (`crate::model`, not under `src/`). -/
abbrev Uci := Nat

/-- Modelled from the spec: `write_uci` (`crate::model`, not under `src/`). -/
def writeUci (u : Uci) : List Byte :=
  [u % 256, u / 256 % 256]

/-- Modelled from the spec: `read_uci`; running out of bytes inside the move
encoding is `UnexpectedEof` (`crate::model`, not under `src/`). -/
def readUci : List Byte → Except IoErr (Uci × List Byte)
  | [] => .error .eof
  | [_] => .error .eof
  | b0 :: b1 :: rest => .ok (b0 + 256 * b1, rest)

/-- Modelled from the spec: `GameId` is an 8-character identifier with a
fixed-width byte encoding; modelled as its list of 8 bytes
(`crate::model`, not under `src/`). -/
abbrev GameId := List Byte

/-- Modelled from the spec: `GameId::read` consumes exactly 8 bytes. -/
def GameId.read (bytes : List Byte) : Except IoErr (GameId × List Byte) :=
  if 8 ≤ bytes.length then .ok (bytes.take 8, bytes.drop 8) else .error .eof

/-- Modelled from the spec: `GameId::write` emits the 8 identifier bytes. -/
def GameId.write (g : GameId) : List Byte := g

/-- Modelled from the spec: `Stats` holds win/draw/loss counts and a rating
sum (`crate::model`, not under `src/`). -/
structure Stats where
  wins : Nat
  draws : Nat
  losses : Nat
  ratingSum : Nat
  deriving DecidableEq, Repr

/-- Modelled from the spec: `Stats::is_empty` iff all three counts are 0. -/
def Stats.isEmpty (s : Stats) : Bool :=
  s.wins == 0 && s.draws == 0 && s.losses == 0

/-- Modelled from the spec: `Stats` adds componentwise (`+=`). -/
def Stats.add (s t : Stats) : Stats :=
  ⟨s.wins + t.wins, s.draws + t.draws, s.losses + t.losses, s.ratingSum + t.ratingSum⟩

/-- Modelled from the spec: `Stats::write`, three count varints then the
rating-sum varint. -/
def Stats.write (s : Stats) : List Byte :=
  writeUint s.wins ++ writeUint s.draws ++ writeUint s.losses ++ writeUint s.ratingSum

/-- Modelled from the spec: `Stats::read`, inverse of `Stats.write`. -/
def Stats.read (bytes : List Byte) : Except IoErr (Stats × List Byte) :=
  match readUint bytes with
  | .error e => .error e
  | .ok (w, bytes) =>
    match readUint bytes with
    | .error e => .error e
    | .ok (d, bytes) =>
      match readUint bytes with
      | .error e => .error e
      | .ok (l, bytes) =>
        match readUint bytes with
        | .error e => .error e
        | .ok (r, bytes) => .ok (⟨w, d, l, r⟩, bytes)

/-- Modelled from the spec: the `Speed` time-control buckets
(`crate::model`, not under `src/`). -/
inductive Speed where
  | ultraBullet
  | bullet
  | blitz
  | rapid
  | classical
  | correspondence
  deriving DecidableEq, Repr

/-- The bit pattern `LichessHeader::write` uses for each speed
(`src/model/lichess.rs:159-166`). -/
def Speed.bits : Speed → Nat
  | .ultraBullet => 1
  | .bullet => 2
  | .blitz => 3
  | .rapid => 4
  | .classical => 5
  | .correspondence => 6

/-- Speed decoding in `LichessHeader::read` (`src/model/lichess.rs:117-126`);
`0` (handled by the caller as END) and `7` are not speeds. -/
def Speed.ofBits : Nat → Option Speed
  | 1 => some .ultraBullet
  | 2 => some .bullet
  | 3 => some .blitz
  | 4 => some .rapid
  | 5 => some .classical
  | 6 => some .correspondence
  | _ => none

/-- `RatingGroup` (`src/model/lichess.rs:17-26`). -/
inductive RatingGroup where
  | groupLow
  | group1600
  | group1800
  | group2000
  | group2200
  | group2500
  | group2800
  | group3200
  deriving DecidableEq, Repr

/-- `RatingGroup::select` (`src/model/lichess.rs:29-46`), embedded exactly as
written: the average is `mover/2 + opponent/2` and the branch chain jumps
from `avg < 2800 → Group2500` straight to `Group3200`. -/
def RatingGroup.select (moverRating opponentRating : Nat) : RatingGroup :=
  let avg := moverRating / 2 + opponentRating / 2
  if avg < 1600 then .groupLow
  else if avg < 1800 then .group1600
  else if avg < 2000 then .group1800
  else if avg < 2200 then .group2000
  else if avg < 2500 then .group2200
  else if avg < 2800 then .group2500
  else .group3200

/-- The bit pattern `LichessHeader::write` uses for each rating group
(`src/model/lichess.rs:166-175`). -/
def RatingGroup.bits : RatingGroup → Nat
  | .groupLow => 0
  | .group1600 => 1
  | .group1800 => 2
  | .group2000 => 3
  | .group2200 => 4
  | .group2500 => 5
  | .group2800 => 6
  | .group3200 => 7

/-- Rating-group decoding in `LichessHeader::read`
(`src/model/lichess.rs:127-137`); the argument is already masked with 7. -/
def RatingGroup.ofBits : Nat → RatingGroup
  | 0 => .groupLow
  | 1 => .group1600
  | 2 => .group1800
  | 3 => .group2000
  | 4 => .group2200
  | 5 => .group2500
  | 6 => .group2800
  | _ => .group3200

/-- `LichessHeader` (`src/model/lichess.rs:105-112`). -/
inductive LichessHeader where
  | Group (ratingGroup : RatingGroup) (speed : Speed) (numGames : Nat)
  | End
  deriving DecidableEq, Repr

/-- `LichessHeader::read` (`src/model/lichess.rs:115-148`): one packed byte
`(count:2 | rating_group:3 | speed:3)`; a stored 2-bit count of 3 means the
true count follows as one extra byte. -/
def LichessHeader.read : List Byte → Except IoErr (LichessHeader × List Byte)
  | [] => .error .eof
  | n :: rest =>
    if n &&& 7 == 0 then .ok (.End, rest)
    else
      match Speed.ofBits (n &&& 7) with
      | none => .error .invalidData
      | some speed =>
        let ratingGroup := RatingGroup.ofBits ((n >>> 3) &&& 7)
        let atLeastNumGames := n >>> 6
        if 3 ≤ atLeastNumGames then
          match rest with
          | [] => .error .eof
          | c :: rest' => .ok (.Group ratingGroup speed c, rest')
        else .ok (.Group ratingGroup speed atLeastNumGames, rest)

/-- `LichessHeader::write` (`src/model/lichess.rs:150-184`), embedded exactly
as written: the packed byte stores `max(3, num_games) as u8` shifted left by
six (the Rust shift silently drops the high bits, modelled by `% 256`), and
the explicit count varint follows only when `num_games >= 3`. -/
def LichessHeader.write : LichessHeader → List Byte
  | .End => [0]
  | .Group ratingGroup speed numGames =>
    (speed.bits ||| (ratingGroup.bits <<< 3) ||| ((max 3 numGames % 256) <<< 6) % 256)
      :: (if 3 ≤ numGames then writeUint numGames else [])

example : LichessHeader.write (.Group .groupLow .bullet 1) = [194] := rfl
example : LichessHeader.read [194] = .error .eof := rfl
example : LichessHeader.write (.Group .group1600 .blitz 3) = [203, 3] := rfl
example : LichessHeader.read [203, 3] = .ok (.Group .group1600 .blitz 3, []) := rfl
example : LichessHeader.write (.Group .groupLow .bullet 4) = [2, 4] := rfl

/-- `MAX_LICHESS_GAMES` (`src/model/lichess.rs:14`). -/
def MAX_LICHESS_GAMES : Nat := 15

/-- `LichessGroup` (`src/model/lichess.rs:187-191`): leaf statistics plus the
sampled `(game_idx, GameId)` references. -/
structure LichessGroup where
  stats : Stats
  games : List (Nat × GameId)
  deriving Repr

/-- `AddAssign for LichessGroup` (`src/model/lichess.rs:193-198`). -/
def LichessGroup.add (g h : LichessGroup) : LichessGroup :=
  ⟨g.stats.add h.stats, g.games ++ h.games⟩

/-- Modelled from the spec: `BySpeed<T>` (`crate::model`, not under `src/`)
is a total container with one slot per speed; modelled as a function. -/
def BySpeed (α : Type) : Type := Speed → α

/-- Modelled from the spec: `ByRatingGroup<T>` (`src/model/lichess.rs:49-59`)
as a total container, modelled as a function. -/
def ByRatingGroup (α : Type) : Type := RatingGroup → α

/-- A sub-entry of a `LichessEntry`: one group per (speed, rating group). -/
abbrev SubEntry := BySpeed (ByRatingGroup LichessGroup)

/-- The all-empty sub-entry (`Default`). -/
def emptySubEntry : SubEntry := fun _ _ => ⟨⟨0, 0, 0, 0⟩, []⟩

/-- `by_speed_mut` / `by_rating_group_mut` combined: update one group. -/
def SubEntry.update (sub : SubEntry) (speed : Speed) (ratingGroup : RatingGroup)
    (f : LichessGroup → LichessGroup) : SubEntry :=
  fun s r => if s = speed ∧ r = ratingGroup then f (sub s r) else sub s r

/-- All speeds in the declaration order used by `BySpeed`'s `try_map`. -/
def Speed.all : List Speed :=
  [.ultraBullet, .bullet, .blitz, .rapid, .classical, .correspondence]

/-- All rating groups in the field order of `ByRatingGroup`'s `try_map`
(`src/model/lichess.rs:88-102`). -/
def RatingGroup.all : List RatingGroup :=
  [.groupLow, .group1600, .group1800, .group2000, .group2200, .group2500,
   .group2800, .group3200]

/-- `LichessEntry` (`src/model/lichess.rs:200-204`): the `FxHashMap` over
UCI keys is modelled as an insertion-ordered association list. -/
structure LichessEntry where
  subEntries : List (Uci × SubEntry)
  maxGameIdx : Nat

/-- The empty entry (`Default`). -/
def LichessEntry.empty : LichessEntry := ⟨[], 0⟩

/-- Map lookup with `or_default` semantics (`sub_entries.entry(uci)`). -/
def lookupSub (l : List (Uci × SubEntry)) (u : Uci) : SubEntry :=
  match l.find? (fun p => p.1 == u) with
  | some p => p.2
  | none => emptySubEntry

/-- Store a sub-entry under a UCI key: overwrite in place when the key is
present, append otherwise (insertion-ordered map update). -/
def setSub (l : List (Uci × SubEntry)) (u : Uci) (s : SubEntry) :
    List (Uci × SubEntry) :=
  if l.any (fun p => p.1 == u) then
    l.map (fun p => if p.1 == u then (u, s) else p)
  else l ++ [(u, s)]

/-- The game-reference loop of `LichessEntry::extend_from_reader`
(`src/model/lichess.rs:252-258`): `num_games` pairs of
`(varint delta, GameId)`, each game index being `base + delta`, tracking the
running maximum index. -/
def readGamePairs : Nat → Nat → Nat → List Byte →
    Except IoErr (List (Nat × GameId) × Nat × List Byte)
  | 0, _, maxIdx, bytes => .ok ([], maxIdx, bytes)
  | n + 1, base, maxIdx, bytes =>
    match readUint bytes with
    | .error e => .error e
    | .ok (delta, bytes) =>
      let gameIdx := base + delta
      match GameId.read bytes with
      | .error e => .error e
      | .ok (game, bytes) =>
        match readGamePairs n base (max maxIdx gameIdx) bytes with
        | .error e => .error e
        | .ok (games, maxIdx, bytes) => .ok ((gameIdx, game) :: games, maxIdx, bytes)

/-- The header loop of `LichessEntry::extend_from_reader`
(`src/model/lichess.rs:245-263`): read group headers until END, folding each
group into the sub-entry.  The loop is fueled; every iteration consumes at
least the header byte, so fuel of one more than the stream length never runs
out. -/
def readGroups : Nat → Nat → SubEntry → Nat → List Byte →
    Except IoErr (SubEntry × Nat × List Byte)
  | 0, _, _, _, _ => .error .eof
  | fuel + 1, base, sub, maxIdx, bytes =>
    match LichessHeader.read bytes with
    | .error e => .error e
    | .ok (.End, bytes) => .ok (sub, maxIdx, bytes)
    | .ok (.Group ratingGroup speed numGames, bytes) =>
      match Stats.read bytes with
      | .error e => .error e
      | .ok (stats, bytes) =>
        match readGamePairs numGames base maxIdx bytes with
        | .error e => .error e
        | .ok (games, maxIdx, bytes) =>
          readGroups fuel base
            (sub.update speed ratingGroup (fun g => g.add ⟨stats, games⟩))
            maxIdx bytes

/-- `LichessEntry::extend_from_reader` (`src/model/lichess.rs:233-265`):
read sub-entries until a clean end of stream; only `UnexpectedEof` at the
UCI position is treated as the end.  Fueled like `readGroups`; each
iteration consumes at least the UCI bytes. -/
def extendFromReader : Nat → LichessEntry → List Byte → Except IoErr LichessEntry
  | 0, _, _ => .error .eof
  | fuel + 1, e, bytes =>
    match readUci bytes with
    | .error .eof => .ok e
    | .error err => .error err
    | .ok (uci, bytes) =>
      let base := e.maxGameIdx + 1
      match readGroups (bytes.length + 1) base (lookupSub e.subEntries uci)
          e.maxGameIdx bytes with
      | .error err => .error err
      | .ok (sub, maxIdx, bytes) =>
        extendFromReader fuel ⟨setSub e.subEntries uci sub, maxIdx⟩ bytes

/-- Decode a byte string into a fresh `LichessEntry` by calling
`extend_from_reader` until EOF. -/
def LichessEntry.readAll (bytes : List Byte) : Except IoErr LichessEntry :=
  extendFromReader (bytes.length + 1) LichessEntry.empty bytes

/-- The game references `LichessEntry::write` emits for one group
(`src/model/lichess.rs:295-300`): a reference survives when its index
exceeds the discard threshold, or when the group holds exactly one game. -/
def LichessGroup.writtenGames (discarded : Nat) (g : LichessGroup) :
    List (Nat × GameId) :=
  g.games.filter (fun p => decide (discarded < p.1) || decide (g.games.length = 1))

/-- The `num_games` count `LichessEntry::write` puts in the group header
(`src/model/lichess.rs:275-283`). -/
def LichessGroup.writeNum (discarded : Nat) (g : LichessGroup) : Nat :=
  if g.games.length = 1 then 1
  else (g.games.filter (fun p => decide (discarded < p.1))).length

/-- The bytes `LichessEntry::write` emits for one group
(`src/model/lichess.rs:285-301`): header, stats and surviving game
references, or nothing when the group is empty after pruning. -/
def LichessGroup.writeBytes (speed : Speed) (ratingGroup : RatingGroup)
    (discarded : Nat) (g : LichessGroup) : List Byte :=
  let numGames := g.writeNum discarded
  if 0 < numGames || !g.stats.isEmpty then
    LichessHeader.write (.Group ratingGroup speed numGames) ++ g.stats.write
      ++ (g.writtenGames discarded).foldr
          (fun p acc => writeUint p.1 ++ GameId.write p.2 ++ acc) []
  else []

/-- `LichessEntry::write` (`src/model/lichess.rs:267-311`): for each UCI key
in map order, the UCI bytes, the per-(speed, rating group) group encodings
in `try_map` order, and the END byte.  The discard threshold is
`max_game_idx` saturating-minus `MAX_LICHESS_GAMES`. -/
def LichessEntry.write (e : LichessEntry) : List Byte :=
  e.subEntries.foldr
    (fun p acc =>
      writeUci p.1
        ++ (Speed.all.foldr
            (fun speed acc2 =>
              (RatingGroup.all.foldr
                (fun ratingGroup acc3 =>
                  LichessGroup.writeBytes speed ratingGroup
                    (e.maxGameIdx - MAX_LICHESS_GAMES) (p.2 speed ratingGroup) ++ acc3)
                []) ++ acc2)
            [])
        ++ 0 :: acc)
    []

/-- One compaction step: decode, then re-encode (`write(read(bytes))`). -/
def lichessCompact (bytes : List Byte) : Except IoErr (List Byte) :=
  (LichessEntry.readAll bytes).map LichessEntry.write

/-- `MAX_YEAR` (`src/model/month.rs:4`). -/
def MAX_YEAR : Nat := 3000

/-- `Month` (`src/model/month.rs:7`): a dense ordinal `year * 12 + month0`. -/
structure Month where
  val : Nat
  deriving DecidableEq, Repr

/-- `Month::max_value` (`src/model/month.rs:10-12`). -/
def Month.maxValue : Month := ⟨MAX_YEAR * 12 + 11⟩

/-- Modelled from Rust's standard `str::parse::<u16>` on the digit strings
the claims use: at least one character, all ASCII digits, and the value must
fit in `u16` (the optional sign accepted by Rust is irrelevant here). -/
def parseU16 (s : List Char) : Option Nat :=
  if s ≠ [] ∧ s.all Char.isDigit then
    let v := s.foldl (fun a c => a * 10 + (c.toNat - 48)) 0
    if v < 65536 then some v else none
  else none

/-- `splitn(2, '/')` as used by `Month::from_str` (`src/model/month.rs:56`):
the part before the first slash, and the whole remainder after it when a
slash is present. -/
def splitnSlash (s : List Char) : List Char × Option (List Char) :=
  let yearPart := s.takeWhile (fun c => c ≠ '/')
  match s.dropWhile (fun c => c ≠ '/') with
  | [] => (yearPart, none)
  | _ :: tail => (yearPart, some tail)

/-- `Month::from_str` (`src/model/month.rs:52-75`): parse the year, default
a missing month component to 1, and range-check both. -/
def Month.fromStr (s : List Char) : Except Unit Month :=
  let (yearPart, monthPart) := splitnSlash s
  match parseU16 yearPart with
  | none => .error ()
  | some year =>
    match (match monthPart with
           | some part => parseU16 part
           | none => some 1) with
    | none => .error ()
    | some monthPlusOne =>
      if year ≤ MAX_YEAR ∧ 1 ≤ monthPlusOne ∧ monthPlusOne ≤ 12 then
        .ok ⟨year * 12 + monthPlusOne - 1⟩
      else .error ()

/-- The little-endian decimal digits of a natural number, with the value
itself as (always sufficient) recursion fuel. -/
def decimalDigitsAux : Nat → Nat → List Nat
  | 0, n => [n % 10]
  | fuel + 1, n => if n < 10 then [n] else n % 10 :: decimalDigitsAux fuel (n / 10)

/-- The canonical decimal digit characters of a natural number
(most-significant first), matching the output of Rust's `u16` display. -/
def decimalString (n : Nat) : List Char :=
  ((decimalDigitsAux n n).reverse).map Nat.digitChar

example : Month.fromStr (decimalString 2023) = .ok ⟨24276⟩ := rfl
example : Month.fromStr ['2', '0', '2', '3', '/', '0', '5'] = .ok ⟨24280⟩ := rfl

/-- `Color`, from the external chess library interface (out of scope per the
spec, referenced only by interface). -/
inductive Color where
  | white
  | black
  deriving DecidableEq, Repr

/-- `ByColor<T>`, from the external chess library interface. -/
structure ByColor (α : Type) where
  white : α
  black : α
  deriving DecidableEq, Repr

/-- `ByColor::into_color` / `by_color`: project one side. -/
def ByColor.get (b : ByColor α) : Color → α
  | .white => b.white
  | .black => b.black

/-- `ByColor::map`. -/
def ByColor.map (f : α → β) (b : ByColor α) : ByColor β :=
  ⟨f b.white, f b.black⟩

/-- Modelled from the spec: game status classification
(`ongoing / unindexable-reason / terminated`); the upstream `Game` type
lives in `src/indexer/lila.rs`, which is not under `src/`. -/
inductive GameStatus where
  | ongoing
  | unindexable
  | terminated
  deriving DecidableEq, Repr

/-- Modelled from the spec: one side of an upstream game record; `user` is
the optional canonical user name, `rating` the optional rating. -/
structure GamePlayer where
  user : Option String
  rating : Option Nat
  deriving DecidableEq, Repr

/-- Modelled from the spec: the parsed upstream `Game` record
(`src/indexer/lila.rs`, not under `src/`).  SAN moves, the variant and the
initial FEN are abstract types supplied by the chess library interface. -/
structure Game (San Variant Fen : Type) where
  id : GameId
  createdAt : Nat
  lastMoveAt : Nat
  variant : Variant
  initialFen : Option Fen
  players : ByColor GamePlayer
  winner : Option Color
  speed : Speed
  rated : Bool
  moves : List San
  status : GameStatus

/-- Modelled from the spec: `Mode = Rated | Casual` (`crate::model`). -/
inductive Mode where
  | rated
  | casual
  deriving DecidableEq, Repr

/-- Modelled from the spec: `Mode::from_rated`. -/
def Mode.fromRated : Bool → Mode
  | true => .rated
  | false => .casual

/-- Modelled from the spec: `GameInfoPlayer` (`crate::model`). -/
structure GameInfoPlayer where
  name : Option String
  rating : Option Nat
  deriving DecidableEq, Repr

/-- Modelled from the spec: `GameInfo` (`crate::model`): per-game summary
with a `ByColor<bool>` flag recording which side has been indexed.  The
month is the dense ordinal produced for the game's `last_move_at`. -/
structure GameInfo where
  winner : Option Color
  speed : Speed
  rated : Bool
  month : Nat
  players : ByColor GameInfoPlayer
  indexed : ByColor Bool
  deriving DecidableEq, Repr

/-- Modelled from the spec: `PersonalStatus` (`crate::model`): per-player
metadata updated in place by `index_game`. -/
structure PersonalStatus where
  indexedAt : Nat
  latestCreatedAt : Nat
  revisitOngoingCreatedAt : Option Nat
  deriving DecidableEq, Repr

/-- The chess library interface used by `index_game` (out of scope per the
spec): position setup from variant and optional FEN, SAN resolution, UCI
conversion, the 128-bit Zobrist hash, playing a move, and the
time-to-month conversion applied to `last_move_at`. -/
structure ChessLib (Pos San MoveT Variant Fen : Type) where
  setup : Variant → Option Fen → Except Unit Pos
  sanToMove : Pos → San → Except Unit MoveT
  toUci : MoveT → Uci
  zobrist : Pos → Nat
  play : Pos → MoveT → Pos
  monthOfTime : Nat → Nat

/-- A store write performed by `index_game`: either the `GameInfo` merge or
one personal-entry merge carrying the data of
`PersonalEntry::new_single(uci, speed, mode, game_id, outcome)` at the key
`(color, zobrist, month)`. -/
inductive StoreOp where
  | mergeGameInfo (id : GameId) (info : GameInfo)
  | mergePersonal (color : Color) (zobrist : Nat) (month : Nat) (uci : Uci)
      (speed : Speed) (mode : Mode) (id : GameId) (outcome : Option Color)
  deriving DecidableEq, Repr

/-- Whether a store write is the `GameInfo` merge. -/
def StoreOp.isGameInfoMerge : StoreOp → Bool
  | .mergeGameInfo _ _ => true
  | _ => false

/-- `game.players.find(...)` (`src/indexer/mod.rs:253-262`): the color the
player occupies, checking white before black. -/
def findPlayerColor (player : String) (ps : ByColor GamePlayer) : Option Color :=
  if ps.white.user == some player then some .white
  else if ps.black.user == some player then some .black
  else none

/-- The already-indexed guard (`src/indexer/mod.rs:268-279`):
`info.indexed.into_color(color)` of the stored `GameInfo`, if any. -/
def alreadyIndexed (info : Option GameInfo) (color : Color) : Bool :=
  match info with
  | none => false
  | some i => i.indexed.get color

/-- Insertion into the replay deduplication table
(`table.insert(pos.zobrist_hash(), uci)`, `src/indexer/mod.rs:325`): the
`FxHashMap` overwrites the value of an existing key in place and otherwise
appends a fresh key. -/
def insertTable (t : List (Nat × Uci)) (z : Nat) (u : Uci) : List (Nat × Uci) :=
  if t.any (fun p => p.1 == z) then
    t.map (fun p => if p.1 == z then (z, u) else p)
  else t ++ [(z, u)]

/-- The replay loop of `index_game` (`src/indexer/mod.rs:315-328`): resolve
each SAN against the current position, recording `(hash_before_move, uci)`;
an unresolvable SAN cuts the replay off, keeping earlier plies. -/
def buildTable (lib : ChessLib Pos San MoveT Variant Fen) :
    Pos → List San → List (Nat × Uci) → List (Nat × Uci)
  | _, [], t => t
  | pos, san :: rest, t =>
    match lib.sanToMove pos san with
    | .error _ => t
    | .ok m =>
      buildTable lib (lib.play pos m) rest
        (insertTable t (lib.zobrist pos) (lib.toUci m))

/-- The position reached by successfully replaying a list of SANs, when all
of them resolve. -/
def replayPos (lib : ChessLib Pos San MoveT Variant Fen) :
    Pos → List San → Option Pos
  | pos, [] => some pos
  | pos, san :: rest =>
    match lib.sanToMove pos san with
    | .error _ => none
    | .ok m => replayPos lib (lib.play pos m) rest

/-- The Zobrist hash recorded before each successfully replayed ply; the
list stops at the first unresolvable SAN. -/
def plyHashes (lib : ChessLib Pos San MoveT Variant Fen) :
    Pos → List San → List Nat
  | _, [] => []
  | pos, san :: rest =>
    match lib.sanToMove pos san with
    | .error _ => []
    | .ok m => lib.zobrist pos :: plyHashes lib (lib.play pos m) rest

/-- The `GameInfo` value `index_game` merges (`src/indexer/mod.rs:280-295`):
winner, speed, rated flag, month of the last move, both players, and the
`indexed` flag set exactly for the side being indexed. -/
def gameInfoFor (lib : ChessLib Pos San MoveT Variant Fen)
    (game : Game San Variant Fen) (color : Color) : GameInfo :=
  { winner := game.winner
    speed := game.speed
    rated := game.rated
    month := lib.monthOfTime game.lastMoveAt
    players := game.players.map (fun p => ⟨p.user, p.rating⟩)
    indexed := ⟨color == Color.white, color == Color.black⟩ }

/-- The personal-entry merge emitted for one deduplication-table slot
(`src/indexer/mod.rs:330-345`). -/
def personalOpFor (lib : ChessLib Pos San MoveT Variant Fen)
    (game : Game San Variant Fen) (color : Color) (p : Nat × Uci) : StoreOp :=
  .mergePersonal color p.1 (lib.monthOfTime game.lastMoveAt) p.2 game.speed
    (Mode.fromRated game.rated) game.id game.winner

/-- `IndexerActor::index_game` (`src/indexer/mod.rs:227-346`) as a pure
function: it receives the stored `GameInfo` for the game (the result of
`get_game_info`) and returns the updated `PersonalStatus` together with the
list of store merges it performs, in order.  Each early `return` of the
source is one branch returning the writes performed so far. -/
def indexGame (lib : ChessLib Pos San MoveT Variant Fen) (player : String)
    (game : Game San Variant Fen) (existingInfo : Option GameInfo)
    (status : PersonalStatus) : PersonalStatus × List StoreOp :=
  let status := { status with latestCreatedAt := game.createdAt }
  if game.status = GameStatus.ongoing then
    (if status.revisitOngoingCreatedAt = none then
       { status with revisitOngoingCreatedAt := some game.createdAt }
     else status, [])
  else if game.status = GameStatus.unindexable then (status, [])
  else if game.players.white.user = none ∨ game.players.black.user = none then
    (status, [])
  else
    match findPlayerColor player game.players with
    | none => (status, [])
    | some color =>
      if alreadyIndexed existingInfo color then (status, [])
      else
        let infoOp := StoreOp.mergeGameInfo game.id (gameInfoFor lib game color)
        match lib.setup game.variant game.initialFen with
        | .error _ => (status, [infoOp])
        | .ok pos =>
          (status,
           infoOp ::
             (buildTable lib pos game.moves []).map (personalOpFor lib game color))

/-! ### Concrete inputs used by the counterexamples and witnesses -/

/-- A fixed 8-byte game identifier used by concrete codec inputs. -/
def gidA : GameId := [1, 1, 1, 1, 1, 1, 1, 1]

/-- A `LichessEntry` with one UCI key whose bullet/low group holds a single
win and a single game reference with index 0. -/
def entrySingle : LichessEntry :=
  ⟨[(0, SubEntry.update emptySubEntry .bullet .groupLow
        (fun _ => ⟨⟨1, 0, 0, 0⟩, [(0, gidA)]⟩))], 0⟩

/-- A sub-entry whose blitz/low group holds sixteen game references that all
carry the same game index 1. -/
def subSixteen : SubEntry :=
  SubEntry.update emptySubEntry .blitz .groupLow
    (fun _ => ⟨⟨1, 0, 0, 0⟩, List.replicate 16 (1, gidA)⟩)

/-- The entry holding `subSixteen`, with `max_game_idx = 1`. -/
def entrySixteen : LichessEntry := ⟨[(1, subSixteen)], 1⟩

/-- A sub-entry whose blitz/low group holds two game references with the
distinct indices 6 and 20. -/
def subTwo : SubEntry :=
  SubEntry.update emptySubEntry .blitz .groupLow
    (fun _ => ⟨⟨1, 1, 0, 0⟩, [(6, gidA), (20, gidA)]⟩)

/-- The entry holding `subTwo`, with `max_game_idx = 20`. -/
def entryTwo : LichessEntry := ⟨[(1, subTwo)], 20⟩

/-- A trivial chess library over unit types in which every setup and every
SAN resolution succeeds. -/
def trivLib : ChessLib Unit Unit Unit Unit Unit :=
  { setup := fun _ _ => .ok ()
    sanToMove := fun _ _ => .ok ()
    toUci := fun _ => 0
    zobrist := fun _ => 0
    play := fun _ _ => ()
    monthOfTime := fun _ => 0 }

/-- A chess library over unit types in which position setup always fails. -/
def noSetupLib : ChessLib Unit Unit Unit Unit Unit :=
  { setup := fun _ _ => .error ()
    sanToMove := fun _ _ => .ok ()
    toUci := fun _ => 0
    zobrist := fun _ => 0
    play := fun _ _ => ()
    monthOfTime := fun _ => 0 }

/-- A chess library whose positions are ply counters: a SAN of `true`
resolves and advances the counter, a SAN of `false` fails to resolve, and
the Zobrist hash is the counter itself. -/
def stepLib : ChessLib Nat Bool Unit Unit Unit :=
  { setup := fun _ _ => .ok 0
    sanToMove := fun _ san => if san then .ok () else .error ()
    toUci := fun _ => 7
    zobrist := fun pos => pos
    play := fun pos _ => pos + 1
    monthOfTime := fun _ => 0 }

/-- A terminated game between `alice` (white) and `bob` (black) used by the
concrete indexer inputs; the move list and timestamps vary per use. -/
def mkGame (createdAt : Nat) (moves : List Bool) (status : GameStatus) :
    Game Bool Unit Unit :=
  { id := [97, 98, 99, 100, 49, 50, 51, 52]
    createdAt := createdAt
    lastMoveAt := 0
    variant := ()
    initialFen := none
    players := ⟨⟨some "alice", some 1500⟩, ⟨some "bob", some 1600⟩⟩
    winner := none
    speed := .blitz
    rated := true
    moves := moves
    status := status }

/-- The unit-typed variant of `mkGame` for the libraries over `Unit`. -/
def mkGameU (createdAt : Nat) (status : GameStatus) : Game Unit Unit Unit :=
  { id := [97, 98, 99, 100, 49, 50, 51, 52]
    createdAt := createdAt
    lastMoveAt := 0
    variant := ()
    initialFen := none
    players := ⟨⟨some "alice", some 1500⟩, ⟨some "bob", some 1600⟩⟩
    winner := none
    speed := .blitz
    rated := true
    moves := []
    status := status }

/-! ### Theorems -/

/-- Every return path of `index_game` leaves `latest_created_at` equal to
the incoming game's `created_at`: the first statement of the function
assigns it unconditionally and nothing later changes it. -/
theorem indexGame_latestCreatedAt (lib : ChessLib Pos San MoveT Variant Fen)
    (player : String) (game : Game San Variant Fen) (info : Option GameInfo)
    (status : PersonalStatus) :
    (indexGame lib player game info status).1.latestCreatedAt = game.createdAt := by
  unfold indexGame
  dsimp only
  repeat' split
  all_goals rfl

/-- C7 counterexample.  The claim states that `status.latest_created_at`
never decreases across `index_game`, even for games delivered out of
chronological order.  With a stored watermark of 1000, indexing a game
created at 500 drops the watermark to 500, because line 234 assigns
`game.created_at` directly instead of taking a maximum. -/
theorem indexGame_latest_can_decrease :
    ¬ (1000 : Nat) ≤
      (indexGame trivLib "alice" (mkGameU 500 .unindexable) none
        ⟨0, 1000, none⟩).1.latestCreatedAt := by
  decide

/-- C7 as amended: `index_game` assigns `game.created_at` to
`status.latest_created_at`, so the watermark is non-decreasing exactly when
games arrive in ascending `created_at` order (`created_at` at least the
stored watermark); out-of-order games decrease it. -/
theorem indexGame_latest_monotone_of_ordered
    (lib : ChessLib Pos San MoveT Variant Fen) (player : String)
    (game : Game San Variant Fen) (info : Option GameInfo)
    (status : PersonalStatus)
    (h : status.latestCreatedAt ≤ game.createdAt) :
    status.latestCreatedAt ≤
      (indexGame lib player game info status).1.latestCreatedAt := by
  rw [indexGame_latestCreatedAt]
  exact h

/-- C7 witness: the amended monotonicity at a concrete in-order game. -/
theorem indexGame_latest_monotone_of_ordered_witness :
    (1000 : Nat) ≤ (mkGameU 1500 .unindexable).createdAt ∧
    (1000 : Nat) ≤
      (indexGame trivLib "alice" (mkGameU 1500 .unindexable) none
        ⟨0, 1000, none⟩).1.latestCreatedAt :=
  ⟨by decide,
   indexGame_latest_monotone_of_ordered trivLib "alice"
     (mkGameU 1500 .unindexable) none ⟨0, 1000, none⟩ (by decide)⟩

/-- C3 counterexample.  The claim states that a game whose position setup
fails is skipped without any `GameInfo` merge.  On a concrete terminated
game whose setup fails, `index_game` has already performed its `GameInfo`
merge (`src/indexer/mod.rs:280-295`) before attempting the setup
(`src/indexer/mod.rs:297-309`), so exactly that merge is written. -/
theorem indexGame_setup_failure_still_merges_info :
    noSetupLib.setup (mkGameU 100 .terminated).variant
        (mkGameU 100 .terminated).initialFen = .error () ∧
    ((indexGame noSetupLib "alice" (mkGameU 100 .terminated) none
        ⟨0, 0, none⟩).2.any StoreOp.isGameInfoMerge) = true := by
  exact ⟨rfl, rfl⟩

/-- C3 as amended: when position setup fails for a game that reached the
replay stage (terminated, both players named, the indexed player found, not
yet indexed for that color), `index_game` skips the game without merging
any personal entries, but the `GameInfo` merge has already been written:
the writes for that game are exactly the `GameInfo` merge. -/
theorem indexGame_setup_failure_writes_only_info
    (lib : ChessLib Pos San MoveT Variant Fen) (player : String)
    (game : Game San Variant Fen) (info : Option GameInfo)
    (status : PersonalStatus) (color : Color)
    (hstatus : game.status = GameStatus.terminated)
    (hw : game.players.white.user ≠ none)
    (hb : game.players.black.user ≠ none)
    (hfind : findPlayerColor player game.players = some color)
    (hidx : alreadyIndexed info color = false)
    (hsetup : lib.setup game.variant game.initialFen = .error ()) :
    (indexGame lib player game info status).2 =
      [StoreOp.mergeGameInfo game.id (gameInfoFor lib game color)] := by
  unfold indexGame
  rw [hstatus]
  simp only [reduceCtorEq, if_false, hfind, hidx, hsetup]
  rw [if_neg (by simp [hw, hb])]

/-- C3 witness: the amended statement at a concrete failing setup. -/
theorem indexGame_setup_failure_writes_only_info_witness :
    noSetupLib.setup (mkGameU 100 .terminated).variant
        (mkGameU 100 .terminated).initialFen = .error () ∧
    (indexGame noSetupLib "alice" (mkGameU 100 .terminated) none
        ⟨0, 0, none⟩).2 =
      [StoreOp.mergeGameInfo (mkGameU 100 .terminated).id
        (gameInfoFor noSetupLib (mkGameU 100 .terminated) Color.white)] :=
  ⟨rfl,
   indexGame_setup_failure_writes_only_info noSetupLib "alice"
     (mkGameU 100 .terminated) none ⟨0, 0, none⟩ Color.white rfl
     (by simp [mkGameU]) (by simp [mkGameU]) rfl rfl rfl⟩

/-- Overwriting an existing key in the deduplication table leaves the key
list unchanged; a fresh key is appended. -/
theorem map_fst_insertTable (t : List (Nat × Uci)) (z : Nat) (u : Uci) :
    (insertTable t z u).map Prod.fst =
      if t.any (fun p => p.1 == z) then t.map Prod.fst
      else t.map Prod.fst ++ [z] := by
  unfold insertTable
  split
  · rw [List.map_map]
    apply List.map_congr_left
    intro p _
    by_cases h : p.1 = z
    · simp [h]
    · simp [h]
  · simp

/-- Membership in the deduplication table's key list after an insertion. -/
theorem mem_map_fst_insertTable (t : List (Nat × Uci)) (z : Nat) (u : Uci)
    (x : Nat) :
    x ∈ (insertTable t z u).map Prod.fst ↔ x ∈ t.map Prod.fst ∨ x = z := by
  rw [map_fst_insertTable]
  split
  · next h =>
    simp only [List.any_eq_true, beq_iff_eq] at h
    obtain ⟨p, hp, hpz⟩ := h
    constructor
    · exact fun hx => Or.inl hx
    · rintro (hx | rfl)
      · exact hx
      · exact List.mem_map.mpr ⟨p, hp, hpz⟩
  · simp

/-- Insertion preserves distinctness of the table's keys. -/
theorem nodup_map_fst_insertTable (t : List (Nat × Uci)) (z : Nat) (u : Uci)
    (h : (t.map Prod.fst).Nodup) : ((insertTable t z u).map Prod.fst).Nodup := by
  rw [map_fst_insertTable]
  split
  · exact h
  · next hz =>
    simp only [List.any_eq_true, beq_iff_eq, not_exists, not_and] at hz
    refine List.Nodup.append h (List.nodup_singleton z) ?_
    intro x hx hx'
    simp only [List.mem_singleton] at hx'
    subst hx'
    obtain ⟨p, hp, hpz⟩ := List.mem_map.mp hx
    exact hz p hp hpz

/-- The replay table keeps its keys distinct. -/
theorem nodup_map_fst_buildTable (lib : ChessLib Pos San MoveT Variant Fen) :
    ∀ (moves : List San) (pos : Pos) (t : List (Nat × Uci)),
    (t.map Prod.fst).Nodup → ((buildTable lib pos moves t).map Prod.fst).Nodup := by
  intro moves
  induction moves with
  | nil => intro pos t h; exact h
  | cons san rest ih =>
    intro pos t h
    unfold buildTable
    cases hm : lib.sanToMove pos san with
    | error e => exact h
    | ok m => exact ih _ _ (nodup_map_fst_insertTable _ _ _ h)

/-- The keys of the replay table are the starting keys together with the
Zobrist hashes recorded before each successfully replayed ply. -/
theorem mem_map_fst_buildTable (lib : ChessLib Pos San MoveT Variant Fen) :
    ∀ (moves : List San) (pos : Pos) (t : List (Nat × Uci)) (x : Nat),
    x ∈ (buildTable lib pos moves t).map Prod.fst ↔
      x ∈ t.map Prod.fst ∨ x ∈ plyHashes lib pos moves := by
  intro moves
  induction moves with
  | nil => intro pos t x; simp [buildTable, plyHashes]
  | cons san rest ih =>
    intro pos t x
    unfold buildTable plyHashes
    cases hm : lib.sanToMove pos san with
    | error e => simp
    | ok m =>
      rw [ih, mem_map_fst_insertTable]
      simp only [List.mem_cons]
      tauto

/-- An unresolvable SAN cuts the replay off without discarding the table
built from the earlier plies. -/
theorem buildTable_cutoff (lib : ChessLib Pos San MoveT Variant Fen)
    (bad : San) (rest : List San) :
    ∀ (pre : List San) (pos posK : Pos) (t : List (Nat × Uci)),
    replayPos lib pos pre = some posK →
    lib.sanToMove posK bad = .error () →
    buildTable lib pos (pre ++ bad :: rest) t = buildTable lib pos pre t := by
  intro pre
  induction pre with
  | nil =>
    intro pos posK t h1 h2
    simp only [replayPos, Option.some_inj] at h1
    subst h1
    simp [buildTable, h2]
  | cons san pre ih =>
    intro pos posK t h1 h2
    unfold replayPos at h1
    cases hm : lib.sanToMove pos san with
    | error e => rw [hm] at h1; exact absurd h1 (by simp)
    | ok m =>
      rw [hm] at h1
      simp only [List.cons_append]
      unfold buildTable
      rw [hm]
      exact ih _ _ _ h1 h2

/-- C8.  When the SAN at ply `k` fails to resolve (all earlier plies
resolving), `index_game` stops the replay there but still merges one
personal entry per distinct position hash recorded at plies `0..k-1`: the
writes are the already-performed `GameInfo` merge followed by one personal
merge per slot of the table built from the first `k` plies; the table's
keys are distinct and are exactly the hashes recorded before those plies.
`index_game` returns normally, so the run continues with the next game. -/
theorem indexGame_san_cutoff (lib : ChessLib Pos San MoveT Variant Fen)
    (player : String) (game : Game San Variant Fen) (info : Option GameInfo)
    (status : PersonalStatus) (color : Color) (pre : List San) (bad : San)
    (rest : List San) (pos0 posK : Pos)
    (hstatus : game.status = GameStatus.terminated)
    (hw : game.players.white.user ≠ none)
    (hb : game.players.black.user ≠ none)
    (hfind : findPlayerColor player game.players = some color)
    (hidx : alreadyIndexed info color = false)
    (hsetup : lib.setup game.variant game.initialFen = .ok pos0)
    (hmoves : game.moves = pre ++ bad :: rest)
    (hpre : replayPos lib pos0 pre = some posK)
    (hbad : lib.sanToMove posK bad = .error ()) :
    (indexGame lib player game info status).2 =
      StoreOp.mergeGameInfo game.id (gameInfoFor lib game color) ::
        (buildTable lib pos0 pre []).map (personalOpFor lib game color) ∧
    ((buildTable lib pos0 pre []).map Prod.fst).Nodup ∧
    (∀ z, z ∈ (buildTable lib pos0 pre []).map Prod.fst ↔
      z ∈ plyHashes lib pos0 pre) := by
  refine ⟨?_, ?_, ?_⟩
  · unfold indexGame
    rw [hstatus]
    simp only [reduceCtorEq, if_false, hfind, hidx, hsetup]
    rw [if_neg (by simp [hw, hb])]
    rw [hmoves, buildTable_cutoff lib bad rest pre pos0 posK [] hpre hbad]
  · exact nodup_map_fst_buildTable lib pre pos0 [] List.nodup_nil
  · intro z
    rw [mem_map_fst_buildTable]
    simp

/-- C8 witness: a concrete game whose second SAN fails; the single
successful ply contributes the single personal merge after the `GameInfo`
merge. -/
theorem indexGame_san_cutoff_witness :
    stepLib.sanToMove 1 false = .error () ∧
    ((indexGame stepLib "alice" (mkGame 100 [true, false] .terminated) none
        ⟨0, 0, none⟩).2 =
      StoreOp.mergeGameInfo (mkGame 100 [true, false] .terminated).id
          (gameInfoFor stepLib (mkGame 100 [true, false] .terminated) .white) ::
        (buildTable stepLib 0 [true] []).map
          (personalOpFor stepLib (mkGame 100 [true, false] .terminated) .white) ∧
      ((buildTable stepLib 0 [true] []).map Prod.fst).Nodup ∧
      (∀ z, z ∈ (buildTable stepLib 0 [true] []).map Prod.fst ↔
        z ∈ plyHashes stepLib 0 [true])) :=
  ⟨rfl,
   indexGame_san_cutoff stepLib "alice" (mkGame 100 [true, false] .terminated)
     none ⟨0, 0, none⟩ .white [true] false [] 0 1 rfl (by simp [mkGame])
     (by simp [mkGame]) rfl rfl rfl rfl rfl rfl⟩

/-- C5 counterexample.  The claim bounds the game references that
`LichessEntry::write` emits per group by `MAX_LICHESS_GAMES = 15` (or
exactly 1 for a singleton group) for every `LichessEntry`.  The in-memory
type does not force distinct game indices: `entrySixteen`'s blitz/low group
holds sixteen references that all carry index 1, every one of which passes
the `game_idx > max_game_idx - 15` filter, so sixteen references are
written. -/
theorem lichess_write_retention_cex :
    (1, subSixteen) ∈ entrySixteen.subEntries ∧
    ¬ (((subSixteen Speed.blitz RatingGroup.groupLow).writtenGames
          (entrySixteen.maxGameIdx - MAX_LICHESS_GAMES)).length ≤
            MAX_LICHESS_GAMES ∨
        ((subSixteen Speed.blitz RatingGroup.groupLow).games.length = 1 ∧
          ((subSixteen Speed.blitz RatingGroup.groupLow).writtenGames
            (entrySixteen.maxGameIdx - MAX_LICHESS_GAMES)).length = 1)) := by
  exact ⟨List.mem_singleton.mpr rfl, by decide⟩

/-- C5 as amended: for every `LichessEntry` whose groups carry pairwise
distinct game indices bounded by `max_game_idx` (as every entry built by
the codec's own merges does), `LichessEntry::write` emits at most
`MAX_LICHESS_GAMES` game references per (speed, rating group) group, or
exactly one reference when the group holds a single game. -/
theorem lichess_write_retention (e : LichessEntry) (u : Uci) (sub : SubEntry)
    (_hmem : (u, sub) ∈ e.subEntries) (speed : Speed)
    (ratingGroup : RatingGroup)
    (hnd : ((sub speed ratingGroup).games.map Prod.fst).Nodup)
    (hle : ∀ p ∈ (sub speed ratingGroup).games, p.1 ≤ e.maxGameIdx) :
    ((sub speed ratingGroup).writtenGames
        (e.maxGameIdx - MAX_LICHESS_GAMES)).length ≤ MAX_LICHESS_GAMES ∨
    ((sub speed ratingGroup).games.length = 1 ∧
      ((sub speed ratingGroup).writtenGames
        (e.maxGameIdx - MAX_LICHESS_GAMES)).length = 1) := by
  set g := sub speed ratingGroup with hg
  set d := e.maxGameIdx - MAX_LICHESS_GAMES with hd
  by_cases hlen : g.games.length = 1
  · refine Or.inr ⟨hlen, ?_⟩
    have : g.writtenGames d = g.games := by
      unfold LichessGroup.writtenGames
      apply List.filter_eq_self.mpr
      intro p _
      simp [hlen]
    rw [this, hlen]
  · refine Or.inl ?_
    have hfil : g.writtenGames d = g.games.filter (fun p => decide (d < p.1)) := by
      unfold LichessGroup.writtenGames
      apply List.filter_congr
      intro p _
      simp [hlen]
    rw [hfil]
    set l := g.games.filter (fun p => decide (d < p.1)) with hl
    have hsub : l.Sublist g.games := List.filter_sublist _
    have hndl : (l.map Prod.fst).Nodup := (hsub.map Prod.fst).nodup hnd
    have hlen2 : l.length = (l.map Prod.fst).length := (List.length_map _ _).symm
    have hcard : (l.map Prod.fst).toFinset.card = (l.map Prod.fst).length :=
      List.toFinset_card_of_nodup hndl
    have hss : (l.map Prod.fst).toFinset ⊆ Finset.Ioc d e.maxGameIdx := by
      intro x hx
      rw [List.mem_toFinset] at hx
      obtain ⟨p, hp, rfl⟩ := List.mem_map.mp hx
      rw [hl] at hp
      have hpd : d < p.1 := of_decide_eq_true (List.mem_filter.mp hp).2
      rw [← hl] at hp
      exact Finset.mem_Ioc.mpr ⟨hpd, hle p (hsub.mem hp)⟩
    have := Finset.card_le_card hss
    rw [hcard] at this
    rw [hlen2]
    calc (l.map Prod.fst).length ≤ (Finset.Ioc d e.maxGameIdx).card := this
      _ = e.maxGameIdx - d := Nat.card_Ioc d e.maxGameIdx
      _ ≤ MAX_LICHESS_GAMES := by rw [hd]; omega

/-- C5 witness: the amended bound at a concrete well-formed entry whose
blitz/low group holds two references with distinct indices 6 and 20. -/
theorem lichess_write_retention_witness :
    (1, subTwo) ∈ entryTwo.subEntries ∧
    ((subTwo Speed.blitz RatingGroup.groupLow).games.map Prod.fst).Nodup ∧
    (∀ p ∈ (subTwo Speed.blitz RatingGroup.groupLow).games,
      p.1 ≤ entryTwo.maxGameIdx) ∧
    (((subTwo Speed.blitz RatingGroup.groupLow).writtenGames
        (entryTwo.maxGameIdx - MAX_LICHESS_GAMES)).length ≤ MAX_LICHESS_GAMES ∨
      ((subTwo Speed.blitz RatingGroup.groupLow).games.length = 1 ∧
        ((subTwo Speed.blitz RatingGroup.groupLow).writtenGames
          (entryTwo.maxGameIdx - MAX_LICHESS_GAMES)).length = 1)) :=
  ⟨List.mem_singleton.mpr rfl, by decide, by decide,
   lichess_write_retention entryTwo 1 subTwo (List.mem_singleton.mpr rfl)
     Speed.blitz RatingGroup.groupLow (by decide) (by decide)⟩

/-- The value encoded by the little-endian digit list is the number. -/
theorem ofDigits_decimalDigitsAux : ∀ (fuel n : Nat), n ≤ fuel + 9 →
    Nat.ofDigits 10 (decimalDigitsAux fuel n) = n := by
  intro fuel
  induction fuel with
  | zero =>
    intro n h
    unfold decimalDigitsAux
    rw [Nat.ofDigits_cons, Nat.ofDigits_nil]
    omega
  | succ fuel ih =>
    intro n h
    unfold decimalDigitsAux
    split
    · rw [Nat.ofDigits_cons, Nat.ofDigits_nil]; omega
    · rw [Nat.ofDigits_cons, ih (n / 10) (by omega)]
      omega

/-- Every entry of the digit list is a decimal digit. -/
theorem decimalDigitsAux_lt : ∀ (fuel n : Nat), n ≤ fuel + 9 →
    ∀ d ∈ decimalDigitsAux fuel n, d < 10 := by
  intro fuel
  induction fuel with
  | zero =>
    intro n h d hd
    unfold decimalDigitsAux at hd
    simp only [List.mem_singleton] at hd
    omega
  | succ fuel ih =>
    intro n h d hd
    unfold decimalDigitsAux at hd
    split at hd
    · simp only [List.mem_singleton] at hd; omega
    · simp only [List.mem_cons] at hd
      rcases hd with rfl | hd
      · omega
      · exact ih (n / 10) (by omega) d hd

/-- The digit list is never empty. -/
theorem decimalDigitsAux_ne_nil (fuel n : Nat) : decimalDigitsAux fuel n ≠ [] := by
  cases fuel with
  | zero => simp [decimalDigitsAux]
  | succ fuel => unfold decimalDigitsAux; split <;> simp

/-- `Nat.digitChar` of a decimal digit has the code point `48 + d`. -/
theorem digitChar_toNat (d : Nat) (h : d < 10) :
    (Nat.digitChar d).toNat = 48 + d := by
  interval_cases d <;> rfl

/-- `Nat.digitChar` of a decimal digit is an ASCII digit character. -/
theorem digitChar_isDigit (d : Nat) (h : d < 10) :
    (Nat.digitChar d).isDigit = true := by
  interval_cases d <;> rfl

/-- `Nat.digitChar` of a decimal digit is not a slash. -/
theorem digitChar_ne_slash (d : Nat) (h : d < 10) :
    Nat.digitChar d ≠ '/' := by
  interval_cases d <;> decide

/-- Folding the base-10 accumulator over a digit list (most-significant
first) recovers the little-endian `Nat.ofDigits` value. -/
theorem foldr_ofDigits (l : List Nat) :
    l.foldr (fun d a => a * 10 + d) 0 = Nat.ofDigits 10 l := by
  induction l with
  | nil => rw [List.foldr_nil, Nat.ofDigits_nil]
  | cons d t ih =>
    rw [List.foldr_cons, ih, Nat.ofDigits_cons]
    ring

/-- The character-level parse accumulator over the rendered digit
characters recovers the encoded value. -/
theorem foldl_digitChars (l : List Nat) (h : ∀ d ∈ l, d < 10) :
    ((l.reverse).map Nat.digitChar).foldl (fun a c => a * 10 + (c.toNat - 48)) 0 =
      Nat.ofDigits 10 l := by
  rw [List.foldl_map]
  rw [List.foldl_ext _ (fun a d => a * 10 + d)]
  · rw [List.foldl_reverse]
    exact foldr_ofDigits l
  · intro a d hd
    rw [digitChar_toNat d (h d (List.mem_reverse.mp hd))]
    omega

/-- Rust's `u16` parse of the rendered decimal string of `n ≤ 3000`
succeeds with value `n`. -/
theorem parseU16_decimalString (n : Nat) (h : n ≤ 3000) :
    parseU16 (decimalString n) = some n := by
  unfold parseU16 decimalString
  rw [if_pos, if_pos]
  · rw [foldl_digitChars _ (decimalDigitsAux_lt n n (by omega)),
      ofDigits_decimalDigitsAux n n (by omega)]
  · rw [foldl_digitChars _ (decimalDigitsAux_lt n n (by omega)),
      ofDigits_decimalDigitsAux n n (by omega)]
    omega
  · constructor
    · simp [decimalDigitsAux_ne_nil]
    · rw [List.all_eq_true]
      intro c hc
      obtain ⟨d, hd, rfl⟩ := List.mem_map.mp hc
      exact digitChar_isDigit d
        (decimalDigitsAux_lt n n (by omega) d (List.mem_reverse.mp hd))

/-- The rendered decimal string contains no slash, so `splitn(2, '/')`
keeps it whole with no month component. -/
theorem splitnSlash_decimalString (n : Nat) :
    splitnSlash (decimalString n) = (decimalString n, none) := by
  have hall : ∀ c ∈ decimalString n, c ≠ '/' := by
    intro c hc
    obtain ⟨d, hd, rfl⟩ := List.mem_map.mp hc
    exact digitChar_ne_slash d
      (decimalDigitsAux_lt n n (by omega) d (List.mem_reverse.mp hd))
  have hdrop : (decimalString n).dropWhile (fun c => decide (c ≠ '/')) = [] := by
    rw [List.dropWhile_eq_nil_iff]
    intro c hc
    simp [hall c hc]
  have htake : (decimalString n).takeWhile (fun c => decide (c ≠ '/')) =
      decimalString n := by
    have happ := List.takeWhile_append_dropWhile
      (p := fun c => decide (c ≠ '/')) (l := decimalString n)
    rw [hdrop, List.append_nil] at happ
    exact happ
  unfold splitnSlash
  rw [hdrop, htake]

/-- C10.  `Month::from_str` on a bare decimal year string (no `/`
separator) succeeds for every year up to `MAX_YEAR`, defaulting the missing
month component to January: the result is the dense ordinal `y * 12`. -/
theorem month_fromStr_bare_year (y : Nat) (hy : y ≤ MAX_YEAR) :
    Month.fromStr (decimalString y) = .ok ⟨y * 12⟩ := by
  unfold Month.fromStr
  rw [splitnSlash_decimalString]
  have hy' : y ≤ 3000 := hy
  dsimp only
  rw [parseU16_decimalString y hy']
  dsimp only
  rw [if_pos ⟨hy, by omega, by omega⟩]
  rfl

/-- C10 witness: the year 2023 parses to ordinal `2023 * 12 = 24276`. -/
theorem month_fromStr_bare_year_witness :
    2023 ≤ MAX_YEAR ∧ Month.fromStr (decimalString 2023) = .ok ⟨2023 * 12⟩ :=
  ⟨by decide, month_fromStr_bare_year 2023 (by decide)⟩

/-- C1.  The claim states that for every `num_games ≤ 127` the header
round-trips through `LichessHeader::write` then `LichessHeader::read`.  It
fails at `num_games = 1`: `write` stores `max(3, 1) = 3` in the 2-bit count
field but emits no explicit count byte (that only happens for
`num_games >= 3`), so `read` consumes a byte that is not there and fails
with `UnexpectedEof` instead of returning the count 1.  The writer clearly
intends `min(3, num_games)`, which the reader decodes. -/
theorem lichessHeader_roundtrip_fails_at_one :
    LichessHeader.write (.Group .groupLow .bullet 1) = [194] ∧
    LichessHeader.read (LichessHeader.write (.Group .groupLow .bullet 1)) =
      .error .eof :=
  ⟨rfl, rfl⟩

/-- C2.  The claim states that one compaction reaches a fixed point:
`write(read(bytes)) == write(read(write(read(bytes))))` for every byte
string that decodes without error.  The concrete stream below (one UCI key,
one bullet/low group with an explicit count byte of 1, one win, one game
reference) decodes fine and compacts to a stream whose group header claims
a count field of 3 without the explicit count byte, so the second
compaction's read fails with `UnexpectedEof` and no fixed point exists. -/
theorem lichessCompact_not_idempotent :
    lichessCompact [0, 0, 194, 1, 1, 0, 0, 0, 0, 1, 1, 1, 1, 1, 1, 1, 1, 0] =
      .ok [0, 0, 194, 1, 0, 0, 0, 1, 1, 1, 1, 1, 1, 1, 1, 1, 0] ∧
    lichessCompact [0, 0, 194, 1, 0, 0, 0, 1, 1, 1, 1, 1, 1, 1, 1, 1, 0] =
      .error .eof :=
  ⟨rfl, rfl⟩

/-- C4.  The claim states that decoding the bytes produced by
`LichessEntry::write` yields the same per-group `Stats` totals as the
original entry.  For `entrySingle` (one group, one win, one game reference)
the written stream misstates its count field (`max` instead of `min` of 3),
so decoding it fails with `UnexpectedEof` — the stats are not recovered at
all, let alone preserved. -/
theorem lichess_write_read_loses_stats :
    (entrySingle.subEntries.head?.map
        (fun p => (p.2 Speed.bullet RatingGroup.groupLow).stats) =
      some ⟨1, 0, 0, 0⟩) ∧
    LichessEntry.readAll (LichessEntry.write entrySingle) = .error .eof :=
  ⟨rfl, rfl⟩

/-- C6.  The claim states that `RatingGroup::select` returns the bucket of
the eight-bucket taxonomy containing the average rating, in particular the
`<3200` bucket (`Group2800`) for `2800 ≤ avg < 3200`.  At ratings
`(2900, 2900)` the average is exactly 2900, inside `[2800, 3200)`, yet the
code returns `Group3200` because the `avg < 3200` branch is missing from
the chain; no input ever produces `Group2800`. -/
theorem ratingGroup_select_missing_2800_branch :
    2800 ≤ 2900 / 2 + 2900 / 2 ∧ 2900 / 2 + 2900 / 2 < 3200 ∧
    RatingGroup.select 2900 2900 = RatingGroup.group3200 :=
  ⟨by decide, by decide, rfl⟩

end OpeningExplorer
